import Mathlib

/-!
Verification of the agenda event-cache layer (`app/agenda/static/storage.js`).

The JavaScript source is shallowly embedded as executable Lean definitions:

* event objects become the `CalEvent` structure, with `Option` fields for
  JS `null`/`undefined`/missing values and an open field bag for the
  remaining scalar properties;
* the module-level `sharedEventsCache` singleton becomes the explicit
  `EventsCache` state threaded through the cache operations;
* JS `Date` values obtained from `new Date(string)` become `JsDate`
  (either `invalid`, mirroring an Invalid Date whose `getTime()` is `NaN`,
  or `valid t` for an order-isomorphic integer timestamp);
* the JS `Map` used for merge-by-id becomes an association list with the
  insertion-order semantics of `Map` (`mapSet`);
* `localStorage` round-trips become explicit `Option String` values with
  `parseInt`/`String(...)` modelled on decimal digit lists.

Timestamps use a strictly monotone injective encoding of
(year, month, day, hour, minute, second) rather than milliseconds since
the epoch; every comparison performed by the source is an order or
equality comparison between such timestamps, so the encoding is faithful
for the properties proved here.
-/

/-- The value stored in an event's `id` property, as seen by `String(e.id)`
and by the loose comparison `e.id != null`.  A non-null value is
represented by its JavaScript string form. -/
inductive JsId where
  | undef : JsId
  | null : JsId
  | str : String → JsId
  deriving DecidableEq

/-- `String(id)` for an event id: `undefined` and `null` stringify to the
literal words, any other value is kept as its string form. -/
def jsStringOfId : JsId → String
  | JsId.undef => "undefined"
  | JsId.null => "null"
  | JsId.str s => s

/-- An event object as held in `sharedEventsCache.events`.  `start` and
`end` (here `end_`) are the raw date strings from the server (`none` for a
missing/null property); `fields` holds the remaining scalar own
properties and `extendedProps` the optional nested bag, both as
association lists. -/
structure CalEvent where
  id : JsId
  start : Option String
  end_ : Option String
  fields : List (String × String)
  extendedProps : Option (List (String × String))
  deriving DecidableEq

/-- The in-memory shared events cache (`sharedEventsCache`): stored filter
key (`none` = JS `null`), coverage window endpoints as timestamps
(`none` = JS `null`), and the event list. -/
structure EventsCache where
  key : Option String
  start : Option Int
  end_ : Option Int
  events : List CalEvent
  deriving DecidableEq

/-- A `new Date(...)` result: either a valid timestamp or an Invalid Date
(whose `getTime()` is `NaN`, so every numeric comparison on it is false). -/
inductive JsDate where
  | invalid : JsDate
  | valid : Int → JsDate
  deriving DecidableEq

/-- `d.getTime() >= t`, with `NaN` comparisons false. -/
def dateGe (d : JsDate) (t : Int) : Bool :=
  match d with
  | JsDate.invalid => false
  | JsDate.valid x => decide (x ≥ t)

/-- `d.getTime() < t`, with `NaN` comparisons false. -/
def dateLt (d : JsDate) (t : Int) : Bool :=
  match d with
  | JsDate.invalid => false
  | JsDate.valid x => decide (x < t)

/-- Is this character a decimal digit? -/
def isDigitChar (c : Char) : Bool := 48 ≤ c.toNat && c.toNat ≤ 57

/-- Numeric value of a decimal digit character. -/
def charDigit (c : Char) : Nat := c.toNat - 48

/-- Character for a decimal digit value. -/
def digitChar : Nat → Char
  | 0 => '0' | 1 => '1' | 2 => '2' | 3 => '3' | 4 => '4'
  | 5 => '5' | 6 => '6' | 7 => '7' | 8 => '8' | _ => '9'

/-- Two-digit decimal field of a date string. -/
def d2 (a b : Char) : Option Nat :=
  if isDigitChar a && isDigitChar b then some (charDigit a * 10 + charDigit b)
  else none

/-- Four-digit decimal field of a date string. -/
def d4 (a b c d : Char) : Option Nat :=
  if isDigitChar a && isDigitChar b && isDigitChar c && isDigitChar d then
    some (charDigit a * 1000 + charDigit b * 100 + charDigit c * 10 + charDigit d)
  else none

/-- Gregorian leap-year test. -/
def isLeap (y : Nat) : Bool := (y % 4 == 0 && y % 100 != 0) || y % 400 == 0

/-- Days in a month, for validating date strings the way `new Date`
rejects out-of-range components. -/
def daysInMonth (y m : Nat) : Nat :=
  if m = 2 then (if isLeap y then 29 else 28)
  else if m = 4 ∨ m = 6 ∨ m = 9 ∨ m = 11 then 30
  else 31

/-- Strictly monotone injective timestamp encoding of a calendar instant
(seconds resolution); stands in for `Date.prototype.getTime`. -/
def encDate (y mo d h mi s : Nat) : Int :=
  ((((((y * 512 + mo * 32 + d) * 24 + h) * 60 + mi) * 60 + s : Nat) : Int))

/-- Parse the optional time-of-day tail `["T" HH ":" MM [":" SS]]` of a
date string. -/
def parseTimeTail (y mo d : Nat) (rest : List Char) : Option Int :=
  match rest with
  | [] => some (encDate y mo d 0 0 0)
  | 'T' :: h1 :: h2 :: ':' :: n1 :: n2 :: rest2 =>
    match d2 h1 h2, d2 n1 n2 with
    | some h, some mi =>
      if h ≤ 23 ∧ mi ≤ 59 then
        match rest2 with
        | [] => some (encDate y mo d h mi 0)
        | ':' :: s1 :: s2 :: [] =>
          match d2 s1 s2 with
          | some s => if s ≤ 59 then some (encDate y mo d h mi s) else none
          | none => none
        | _ => none
      else none
    | _, _ => none
  | _ => none

/-- Parse of `"YYYY-MM-DD"` optionally followed by `"THH:MM[:SS]"`, the
date-string shapes the server emits; anything else yields `none`
(an Invalid Date). -/
def jsParseDateChars (cs : List Char) : Option Int :=
  match cs with
  | y1 :: y2 :: y3 :: y4 :: '-' :: m1 :: m2 :: '-' :: dd1 :: dd2 :: rest =>
    match d4 y1 y2 y3 y4, d2 m1 m2, d2 dd1 dd2 with
    | some y, some mo, some d =>
      if 1 ≤ mo ∧ mo ≤ 12 ∧ 1 ≤ d ∧ d ≤ daysInMonth y mo then
        parseTimeTail y mo d rest
      else none
    | _, _, _ => none
  | _ => none

/-- `new Date(chars)`: a valid timestamp or an Invalid Date. -/
def jsNewDate (cs : List Char) : JsDate :=
  match jsParseDateChars cs with
  | some t => JsDate.valid t
  | none => JsDate.invalid

/-- `.replace(' ', 'T')`: replace the first space, as in
`String(ev.start).replace(' ', 'T')`. -/
def replaceSpaceT : List Char → List Char
  | [] => []
  | c :: rest => if c = ' ' then 'T' :: rest else c :: replaceSpaceT rest

/-- `const s = ev.start ? new Date(String(ev.start).replace(' ', 'T')) : null`:
`none` when the property is missing/null or the empty string (falsy). -/
def evStartDate (ev : CalEvent) : Option JsDate :=
  match ev.start with
  | none => none
  | some s => if s = "" then none else some (jsNewDate (replaceSpaceT s.data))

/-- `const e = ev.end ? new Date(String(ev.end).replace(' ', 'T')) : null`. -/
def evEndDate (ev : CalEvent) : Option JsDate :=
  match ev.end_ with
  | none => none
  | some s => if s = "" then none else some (jsNewDate (replaceSpaceT s.data))

/-- The filter predicate of `eventsFromCache`: with both endpoints,
`e.getTime() >= rs && s.getTime() < re`; open-ended events use
`s.getTime() < re`; otherwise excluded. -/
def inRange (rs re : Int) (ev : CalEvent) : Bool :=
  match evStartDate ev, evEndDate ev with
  | some sD, some eD => dateGe eD rs && dateLt sD re
  | some sD, none => dateLt sD re
  | _, _ => false

/-- `eventsFromCache(rangeStart, rangeEnd, key)`: empty on key mismatch,
otherwise the events overlapping the range. -/
def eventsFromCache (c : EventsCache) (rs re : Int) (key : String) : List CalEvent :=
  if c.key = some key then c.events.filter (fun ev => inRange rs re ev) else []

/-- `cacheCoversRange(rangeStart, rangeEnd, key)`. -/
def cacheCoversRange (c : EventsCache) (rs re : Int) (key : String) : Bool :=
  if c.key = some key then
    match c.start, c.end_ with
    | some s, some e => decide (s ≤ rs) && decide (e ≥ re)
    | _, _ => false
  else false

/-- `String(e.id)`, the JS `Map` key used when merging events by id. -/
def evKey (e : CalEvent) : String := jsStringOfId e.id

/-- `Map.prototype.set` on an insertion-ordered association list: an
existing key keeps its position and gets the new value, a new key is
appended. -/
def mapSet (m : List (String × CalEvent)) (k : String) (v : CalEvent) :
    List (String × CalEvent) :=
  if m.any (fun p => p.1 = k) then
    m.map (fun p => if p.1 = k then (k, v) else p)
  else m ++ [(k, v)]

/-- Fold a list of events into a map with `set(String(e.id), e)`, used both
for `new Map(events.map(e => [String(e.id), e]))` and for the subsequent
`forEach` over the incoming list. -/
def mapSetAll (m : List (String × CalEvent)) (es : List CalEvent) :
    List (String × CalEvent) :=
  es.foldl (fun acc e => mapSet acc (evKey e) e) m

/-- `if (covStart && covStart < sharedEventsCache.start) start = covStart`:
coverage lower-bound widening (the merge branch only runs with a non-null
current bound, which the fallback arm keeps unchanged). -/
def coverLow (covStart cur : Option Int) : Option Int :=
  match covStart, cur with
  | some cs, some s => if cs < s then some cs else some s
  | _, cur => cur

/-- `if (covEnd && covEnd > sharedEventsCache.end) end = covEnd`: coverage
upper-bound widening. -/
def coverHigh (covEnd cur : Option Int) : Option Int :=
  match covEnd, cur with
  | some ce, some e => if e < ce then some ce else some e
  | _, cur => cur

/-- `storeEventsToCache(list, covStart, covEnd, key)`: replace the cache
wholesale on key change or missing coverage, otherwise merge by id and
widen the coverage window. -/
def storeEventsToCache (c : EventsCache) (list : List CalEvent)
    (covStart covEnd : Option Int) (key : String) : EventsCache :=
  if ¬ c.key = some key ∨ c.start = none ∨ c.end_ = none then
    { key := some key, start := covStart, end_ := covEnd, events := list }
  else
    { key := c.key
      start := coverLow covStart c.start
      end_ := coverHigh covEnd c.end_
      events := (mapSetAll (mapSetAll [] c.events) list).map Prod.snd }

/-- `addEventToCache(ev)`: a duplicate-id guard applies only when
`String(ev.id)` is truthy (`ev.id != null` and the string is nonempty). -/
def addEventToCache (c : EventsCache) (ev : CalEvent) : EventsCache :=
  let idStr : Option String :=
    if ev.id = JsId.null ∨ ev.id = JsId.undef then none else some (jsStringOfId ev.id)
  match idStr with
  | some s =>
    if s = "" then { c with events := c.events ++ [ev] }
    else if c.events.any (fun e => jsStringOfId e.id = s) then c
    else { c with events := c.events ++ [ev] }
  | none => { c with events := c.events ++ [ev] }

/-- Little-endian decimal digit characters of `n`, driven by explicit fuel
so that the definition is structurally recursive (and hence computable by
the kernel). -/
def natCharsRev : Nat → Nat → List Char
  | 0, _ => []
  | _ + 1, 0 => []
  | fuel + 1, n => digitChar (n % 10) :: natCharsRev fuel (n / 10)

/-- Decimal digit characters of a natural number, as produced by
JS `String(n)`. -/
def natChars (n : Nat) : List Char :=
  if n = 0 then ['0'] else (natCharsRev n n).reverse

/-- JS `String(v)` for an integer value. -/
def jsStringOfInt (v : Int) : String :=
  if v < 0 then String.mk ('-' :: natChars (-v).toNat)
  else String.mk (natChars v.toNat)

/-- Whitespace skipped by `parseInt`. -/
def isJsSpace (c : Char) : Bool := c == ' ' || c == '\t' || c == '\n' || c == '\r'

/-- Value of a run of decimal digit characters (most significant first). -/
def digitsVal (cs : List Char) : Nat :=
  cs.foldl (fun a c => a * 10 + charDigit c) 0

/-- Leading decimal-digit run of a character list, `none` when there is no
digit (`parseInt` would yield `NaN`); trailing characters are ignored. -/
def leadNat (cs : List Char) : Option Nat :=
  let ds := cs.takeWhile isDigitChar
  if ds = [] then none else some (digitsVal ds)

/-- `parseInt(s, 10)` on a character list: skip whitespace, optional sign,
then the leading digit run. -/
def jsParseIntChars (cs : List Char) : Option Int :=
  let cs1 := cs.dropWhile isJsSpace
  match cs1 with
  | [] => none
  | c :: rest =>
    if c = '-' then (leadNat rest).map (fun n => -(n : Int))
    else if c = '+' then (leadNat rest).map (fun n => (n : Int))
    else (leadNat (c :: rest)).map (fun n => (n : Int))

/-- `parseInt(s, 10)`; `none` models `NaN`. -/
def jsParseInt (s : String) : Option Int := jsParseIntChars s.data

/-- `getDefaultEventDurationMin()` reading the raw stored string
(`none` = no stored value): `parseInt(stored || '60', 10)` followed by the
finiteness/positivity/`15` guard. -/
def getDefaultEventDurationMin (stored : Option String) : Int :=
  let raw := match stored with
    | none => "60"
    | some s => if s = "" then "60" else s
  match jsParseInt raw with
  | none => 60
  | some saved => if saved ≤ 0 ∨ saved = 15 then 60 else saved

/-- `setDefaultEventDurationMin(mins)`: the string written to storage
(the guard coerces non-positive values and exactly `15` to `60`). -/
def setDefaultEventDurationMin (mins : Int) : String :=
  let v : Int := if mins ≤ 0 ∨ mins = 15 then 60 else mins
  jsStringOfInt v

/-- Outcome of the network `fetch` for events: a rejection, or a response
with its `ok` flag and decoded body. -/
inductive FetchOutcome where
  | reject : FetchOutcome
  | response : Bool → List CalEvent → FetchOutcome
  deriving DecidableEq

/-- What the `events` callback delivers to FullCalendar: `success(list)`
or `failure(err)`. -/
inductive Delivery where
  | success : List CalEvent → Delivery
  | failure : Delivery
  deriving DecidableEq

/-- What the synchronous part of one `events` callback invocation did. -/
inductive Outcome where
  | fromCache : List CalEvent → Outcome
  | awaited : String → Outcome
  | requested : String → Outcome
  deriving DecidableEq

/-- The fetch-coordinator state: the shared cache plus the keys of the
`pendingEventsFetches` map. -/
structure CoordState where
  cache : EventsCache
  pending : List String
  deriving DecidableEq

/-- `` `${key}|${covStart.toISOString()}|${covEnd.toISOString()}` ``, with
timestamps rendered through their integer encoding. -/
def dedupKeyOf (key : String) (cs ce : Int) : String :=
  key ++ "|" ++ jsStringOfInt cs ++ "|" ++ jsStringOfInt ce

/-- The synchronous part of the `events` callback for a padded coverage
window `[cs, ce)` and visible range `[fs, fe)`: answer from cache when
covered, join a pending fetch with the same dedup key, or register a new
request. -/
def coordStep (st : CoordState) (fs fe cs ce : Int) (key : String) :
    CoordState × Outcome :=
  let dk := dedupKeyOf key cs ce
  if cacheCoversRange st.cache cs ce key then
    (st, Outcome.fromCache (eventsFromCache st.cache fs fe key))
  else if dk ∈ st.pending then
    (st, Outcome.awaited dk)
  else
    ({ st with pending := st.pending ++ [dk] }, Outcome.requested dk)

/-- Settlement of a request registered under `dk`: on an ok response the
cache absorbs the list and `success` receives the freshly filtered view;
on rejection or a non-ok status the `catch` surfaces the error through
`failure` and the cache is untouched.  The `finally` step always deletes
the pending entry. -/
def resolveFetch (st : CoordState) (dk : String) (out : FetchOutcome)
    (cs ce : Int) (key : String) (fs fe : Int) : CoordState × Delivery :=
  match out with
  | FetchOutcome.response true list =>
    let c' := storeEventsToCache st.cache list (some cs) (some ce) key
    ({ cache := c', pending := st.pending.erase dk },
      Delivery.success (eventsFromCache c' fs fe key))
  | FetchOutcome.response false _ =>
    ({ cache := st.cache, pending := st.pending.erase dk }, Delivery.failure)
  | FetchOutcome.reject =>
    ({ cache := st.cache, pending := st.pending.erase dk }, Delivery.failure)

/-- A caller that joined an already-pending fetch reads the shared cache
once that fetch's promise settles (the registered promise always
fulfills, its own `catch` having handled any failure). -/
def awaitedDelivery (st : CoordState) (fs fe : Int) (key : String) : Delivery :=
  Delivery.success (eventsFromCache st.cache fs fe key)

/-- One interleaving step of the coordinator: an `events` invocation or the
settlement of some request. -/
inductive CoordAction where
  | invoke : Int → Int → Int → Int → String → CoordAction
  | settle : String → FetchOutcome → Int → Int → String → Int → Int → CoordAction

/-- State transition of one coordinator action. -/
def applyAction (st : CoordState) : CoordAction → CoordState
  | CoordAction.invoke fs fe cs ce key => (coordStep st fs fe cs ce key).1
  | CoordAction.settle dk out cs ce key fs fe =>
    (resolveFetch st dk out cs ce key fs fe).1

/-- The module-load state: empty cache, no pending fetches. -/
def initCoord : CoordState :=
  { cache := { key := none, start := none, end_ := none, events := [] },
    pending := [] }

/-- Run a list of coordinator actions from the initial state. -/
def runCoord (as : List CoordAction) : CoordState :=
  as.foldl applyAction initCoord

/-- Object spread `{ ...a, ...b }` on string-valued bags: keys of `a` in
order with `b`'s values where overridden, then `b`'s new keys. -/
def objMerge (a b : List (String × String)) : List (String × String) :=
  a.map (fun p =>
      match b.find? (fun q => q.1 = p.1) with
      | some q => (p.1, q.2)
      | none => p)
    ++ b.filter (fun q => ¬ a.any (fun p => p.1 = q.1))

/-- Modelled from the spec: the per-field "B's fields merged over A's"
event that the merge-correctness sentence predicts `storeEventsToCache`
produces for two events with the same id — every field present in A but
absent in B retained, and `extendedProps` merged key-by-key rather than
replaced wholesale.  (The source has no such merge in
`storeEventsToCache`; this definition exists only to compare the claim
against the code's actual behaviour.) -/
def specFieldMerge (A B : CalEvent) : CalEvent :=
  { id := B.id
    start := match B.start with | some s => some s | none => A.start
    end_ := match B.end_ with | some s => some s | none => A.end_
    fields := objMerge A.fields B.fields
    extendedProps :=
      match A.extendedProps, B.extendedProps with
      | some a, some b => some (objMerge a b)
      | some a, none => some a
      | none, some b => some b
      | none, none => none }

/-! ## Basic lemmas about the cache operations -/

lemma storeEventsToCache_key (c : EventsCache) (list : List CalEvent)
    (covStart covEnd : Option Int) (key : String) :
    (storeEventsToCache c list covStart covEnd key).key = some key := by
  unfold storeEventsToCache
  split
  · rfl
  · next h =>
    push_neg at h
    simpa using h.1

lemma eventsFromCache_key_mismatch (c : EventsCache) (rs re : Int) (key : String)
    (h : c.key ≠ some key) : eventsFromCache c rs re key = [] := by
  simp [eventsFromCache, h]

/-! ## C5: coverage test -/

/-- C5: `covers(rangeStart, rangeEnd, key)` is true iff the stored filter
key equals `key` and the stored coverage window contains the range; with
either coverage endpoint unset the cache covers nothing. -/
theorem cacheCoversRange_spec (c : EventsCache) (rs re : Int) (key : String) :
    (cacheCoversRange c rs re key = true ↔
      c.key = some key ∧ ∃ s e, c.start = some s ∧ c.end_ = some e ∧ s ≤ rs ∧ re ≤ e) ∧
    (c.start = none → cacheCoversRange c rs re key = false) ∧
    (c.end_ = none → cacheCoversRange c rs re key = false) := by
  unfold cacheCoversRange
  by_cases hk : c.key = some key
  · cases hs : c.start <;> cases he : c.end_ <;>
      simp [hk, hs, he, and_comm, ge_iff_le]
  · simp [hk]

/-- Witness for `cacheCoversRange_spec`: a concrete cache with window
`[0, 100)` covers `[10, 90)`, and with the start endpoint unset covers
nothing. -/
theorem cacheCoversRange_spec_witness :
    (cacheCoversRange
        { key := some "k", start := some 0, end_ := some 100, events := [] } 10 90 "k" = true ↔
      (some "k" : Option String) = some "k" ∧
        ∃ s e, (some 0 : Option Int) = some s ∧ (some 100 : Option Int) = some e ∧
          s ≤ 10 ∧ (90 : Int) ≤ e) ∧
    cacheCoversRange
        { key := some "k", start := none, end_ := some 100, events := [] } 10 90 "k" = false := by
  refine ⟨(cacheCoversRange_spec _ 10 90 "k").1, ?_⟩
  exact (cacheCoversRange_spec
    { key := some "k", start := none, end_ := some 100, events := [] } 10 90 "k").2.1 rfl

/-! ## C7: key isolation -/

/-- C7: absorbing any data under key `k1` and then querying any range
under a different key `k2` yields the empty list; more generally a read
returns events only when the supplied key equals the stored key. -/
theorem key_isolation (c : EventsCache) (list : List CalEvent)
    (covStart covEnd : Option Int) (k1 k2 : String) (rs re : Int)
    (hne : k1 ≠ k2) :
    eventsFromCache (storeEventsToCache c list covStart covEnd k1) rs re k2 = [] ∧
    (∀ (c' : EventsCache) (k : String) (rs' re' : Int),
      c'.key ≠ some k → eventsFromCache c' rs' re' k = []) := by
  constructor
  · apply eventsFromCache_key_mismatch
    rw [storeEventsToCache_key]
    simp [hne]
  · intro c' k rs' re' h
    exact eventsFromCache_key_mismatch c' rs' re' k h

/-- Witness for `key_isolation`: storing one event under `"a"` and
querying under `"b"` returns nothing. -/
theorem key_isolation_witness :
    eventsFromCache
      (storeEventsToCache { key := none, start := none, end_ := none, events := [] }
        [{ id := JsId.str "1", start := some "2024-01-10T09:00", end_ := none,
           fields := [], extendedProps := none }]
        (some 0) (some 100) "a") 0 1000000000 "b" = [] :=
  (key_isolation { key := none, start := none, end_ := none, events := [] }
    [{ id := JsId.str "1", start := some "2024-01-10T09:00", end_ := none,
       fields := [], extendedProps := none }]
    (some 0) (some 100) "a" "b" 0 1000000000 (by decide)).1

/-! ## C2: range query characterization -/

/-- C2: `eventsFromCache` returns exactly the cached events overlapping the
range — with both endpoints parseable, membership holds iff
`end ≥ rangeStart` and `start < rangeEnd`; open-ended events are kept iff
`start < rangeEnd`; events without a parseable start never appear; a key
mismatch yields the empty list. -/
theorem eventsFromCache_range_spec (c : EventsCache) (rs re : Int) (key : String)
    (ev : CalEvent) (s e : Int) :
    (c.key ≠ some key → eventsFromCache c rs re key = []) ∧
    (c.key = some key → ev ∈ c.events →
      ((evStartDate ev = some (JsDate.valid s) → evEndDate ev = some (JsDate.valid e) →
          (ev ∈ eventsFromCache c rs re key ↔ e ≥ rs ∧ s < re)) ∧
       (evStartDate ev = some (JsDate.valid s) → evEndDate ev = none →
          (ev ∈ eventsFromCache c rs re key ↔ s < re)) ∧
       ((∀ t : Int, evStartDate ev ≠ some (JsDate.valid t)) →
          ev ∉ eventsFromCache c rs re key))) := by
  refine ⟨fun h => eventsFromCache_key_mismatch c rs re key h, fun hk hev => ?_⟩
  have hmem : ev ∈ eventsFromCache c rs re key ↔ inRange rs re ev = true := by
    simp [eventsFromCache, hk, List.mem_filter, hev]
  refine ⟨fun hs he => ?_, fun hs he => ?_, fun hno => ?_⟩
  · rw [hmem]
    simp [inRange, hs, he, dateGe, dateLt, ge_iff_le]
  · rw [hmem]
    simp [inRange, hs, he, dateLt]
  · rw [hmem]
    cases hsd : evStartDate ev with
    | none => simp [inRange, hsd]
    | some d =>
      cases d with
      | invalid =>
        cases hed : evEndDate ev with
        | none => simp [inRange, hsd, hed, dateLt]
        | some d2 => simp [inRange, hsd, hed, dateLt]
      | valid t => exact absurd hsd (hno t)

/-- A concrete event used in witnesses: 09:00-10:00 on 2024-01-10. -/
def sampleEvent : CalEvent :=
  { id := JsId.str "1"
    start := some "2024-01-10T09:00"
    end_ := some "2024-01-10T10:00"
    fields := []
    extendedProps := none }

/-- A concrete one-event cache under filter key `"k"`. -/
def sampleCache : EventsCache :=
  { key := some "k", start := none, end_ := none, events := [sampleEvent] }

/-- Witness for `eventsFromCache_range_spec`: on the concrete one-event
cache the overlap test decides membership for a matching range. -/
theorem eventsFromCache_range_spec_witness :
    sampleEvent ∈
      eventsFromCache sampleCache
        (encDate 2024 1 10 8 0 0) (encDate 2024 1 10 9 30 0) "k" ↔
      encDate 2024 1 10 10 0 0 ≥ encDate 2024 1 10 8 0 0 ∧
        encDate 2024 1 10 9 0 0 < encDate 2024 1 10 9 30 0 :=
  ((eventsFromCache_range_spec sampleCache
      (encDate 2024 1 10 8 0 0) (encDate 2024 1 10 9 30 0) "k" sampleEvent
      (encDate 2024 1 10 9 0 0) (encDate 2024 1 10 10 0 0)).2
    rfl (by decide)).1 (by decide) (by decide)

/-! ## C3: concrete range filtering (end-touching ranges) -/

/-- C3 counterexample: the claim says an event ending exactly at the query
range's start is excluded, but the filter keeps events with
`end >= rangeStart`, so the 09:00-10:00 event IS returned for the range
starting at 10:00. -/
theorem range_touching_included_cex :
    eventsFromCache sampleCache
      (encDate 2024 1 10 10 0 0) (encDate 2024 1 11 0 0 0) "k" = [sampleEvent] := by
  decide

/-- C3 amended: the 09:00-10:00 event is included in the query range
[08:00, 09:30) and also in [10:00, next day) — an event whose end equals
the range start is still returned, because the filter tests
`end ≥ rangeStart`, not a strict inequality. -/
theorem range_filter_concrete :
    eventsFromCache sampleCache
        (encDate 2024 1 10 8 0 0) (encDate 2024 1 10 9 30 0) "k" = [sampleEvent] ∧
      eventsFromCache sampleCache
        (encDate 2024 1 10 10 0 0) (encDate 2024 1 11 0 0 0) "k" = [sampleEvent] := by
  decide

/-! ## C6: failed fetches leave the cache untouched -/

/-- C6: when the events fetch rejects or returns a non-ok status, the
whole cache state is exactly what it was before, the pending entry for
the dedup key is deleted, and the error is surfaced through the `failure`
callback. -/
theorem fetch_failure_leaves_cache (st : CoordState) (dk : String) (out : FetchOutcome)
    (cs ce : Int) (key : String) (fs fe : Int) (list : List CalEvent)
    (h : out = FetchOutcome.reject ∨ out = FetchOutcome.response false list) :
    resolveFetch st dk out cs ce key fs fe =
      ({ cache := st.cache, pending := st.pending.erase dk }, Delivery.failure) := by
  rcases h with h | h <;> subst h <;> rfl

/-- Witness for `fetch_failure_leaves_cache` at a concrete rejected
fetch. -/
theorem fetch_failure_leaves_cache_witness :
    resolveFetch initCoord "d" FetchOutcome.reject 0 1 "k" 0 1 =
      ({ cache := initCoord.cache, pending := initCoord.pending.erase "d" },
        Delivery.failure) :=
  fetch_failure_leaves_cache initCoord "d" FetchOutcome.reject 0 1 "k" 0 1 [] (Or.inl rfl)

/-! ## C4: request de-duplication -/

lemma resolveFetch_pending (st : CoordState) (dk : String) (out : FetchOutcome)
    (cs ce : Int) (key : String) (fs fe : Int) :
    (resolveFetch st dk out cs ce key fs fe).1.pending = st.pending.erase dk := by
  cases out with
  | reject => rfl
  | response ok list => cases ok <;> rfl

lemma coordStep_pending_nodup (st : CoordState) (fs fe cs ce : Int) (key : String)
    (h : st.pending.Nodup) : ((coordStep st fs fe cs ce key).1.pending).Nodup := by
  unfold coordStep
  dsimp only
  split
  · exact h
  · split
    · exact h
    · next hmem =>
      simp only [List.nodup_append, List.nodup_cons, List.not_mem_nil,
        not_false_iff, List.nodup_nil, and_true, true_and]
      exact ⟨h, by simpa using hmem⟩

lemma applyAction_pending_nodup (st : CoordState) (a : CoordAction)
    (h : st.pending.Nodup) : ((applyAction st a).pending).Nodup := by
  cases a with
  | invoke fs fe cs ce key => exact coordStep_pending_nodup st fs fe cs ce key h
  | settle dk out cs ce key fs fe =>
    rw [applyAction, resolveFetch_pending]
    exact h.erase dk

lemma foldl_applyAction_pending_nodup (as : List CoordAction) :
    ∀ st : CoordState, st.pending.Nodup → ((as.foldl applyAction st).pending).Nodup := by
  induction as with
  | nil => intro st h; exact h
  | cons a as ih =>
    intro st h
    exact ih (applyAction st a) (applyAction_pending_nodup st a h)

/-- An interleaving in which a fetch for window `[0,100)` is pending while
a second fetch for `[0,200)` under the same key settles, widening coverage
over `[0,100)`. -/
def bypassActions : List CoordAction :=
  [CoordAction.invoke 0 100 0 100 "k",
   CoordAction.invoke 0 200 0 200 "k",
   CoordAction.settle (dedupKeyOf "k" 0 200) (FetchOutcome.response true []) 0 200 "k" 0 200]

/-- C4 counterexample: after `bypassActions` the dedup key for
`("k", [0,100))` is still pending, yet a new invocation with exactly that
dedup key answers synchronously from the cache (a `fromCache` outcome)
instead of awaiting the pending fetch — the coverage check runs before
the pending-map check. -/
theorem dedup_covered_bypass_cex :
    dedupKeyOf "k" 0 100 ∈ (runCoord bypassActions).pending ∧
    (coordStep (runCoord bypassActions) 0 100 0 100 "k").2 = Outcome.fromCache [] := by
  decide

/-- C4 amended: an invocation whose dedup key is pending never issues a
new request and leaves the state unchanged; when additionally the cache
does not cover the padded range it awaits that pending fetch; a request
is only issued when its dedup key is absent, registering it; pending keys
are duplicate-free in every interleaving; settling (success or failure)
removes the dedup key; and an awaiter reads the same data from the shared
cache that the successful requester delivered. -/
theorem events_dedup_invariants (st : CoordState) (fs fe cs ce : Int) (key : String)
    (out : FetchOutcome) (list : List CalEvent) :
    (dedupKeyOf key cs ce ∈ st.pending →
        (∀ dk', (coordStep st fs fe cs ce key).2 ≠ Outcome.requested dk') ∧
          (coordStep st fs fe cs ce key).1 = st) ∧
    (dedupKeyOf key cs ce ∈ st.pending →
        cacheCoversRange st.cache cs ce key = false →
        coordStep st fs fe cs ce key = (st, Outcome.awaited (dedupKeyOf key cs ce))) ∧
    ((coordStep st fs fe cs ce key).2 = Outcome.requested (dedupKeyOf key cs ce) →
        dedupKeyOf key cs ce ∉ st.pending ∧
          (coordStep st fs fe cs ce key).1.pending
            = st.pending ++ [dedupKeyOf key cs ce]) ∧
    (∀ as : List CoordAction, ((runCoord as).pending).Nodup) ∧
    ((resolveFetch st (dedupKeyOf key cs ce) out cs ce key fs fe).1.pending
        = st.pending.erase (dedupKeyOf key cs ce)) ∧
    (st.pending.Nodup →
        dedupKeyOf key cs ce ∉
          (resolveFetch st (dedupKeyOf key cs ce) out cs ce key fs fe).1.pending) ∧
    (awaitedDelivery
        (resolveFetch st (dedupKeyOf key cs ce)
          (FetchOutcome.response true list) cs ce key fs fe).1 fs fe key
      = (resolveFetch st (dedupKeyOf key cs ce)
          (FetchOutcome.response true list) cs ce key fs fe).2) := by
  refine ⟨?_, ?_, ?_, ?_, resolveFetch_pending st _ out cs ce key fs fe, ?_, rfl⟩
  · intro hmem
    cases hcov : cacheCoversRange st.cache cs ce key <;>
      simp [coordStep, hcov, hmem]
  · intro hmem hcov
    simp [coordStep, hcov, hmem]
  · intro h
    by_cases hcov : cacheCoversRange st.cache cs ce key = true
    · simp [coordStep, hcov] at h
    · by_cases hmem : dedupKeyOf key cs ce ∈ st.pending
      · simp [coordStep, hcov, hmem] at h
      · exact ⟨hmem, by simp [coordStep, hcov, hmem]⟩
  · intro as
    exact foldl_applyAction_pending_nodup as initCoord List.nodup_nil
  · intro h
    rw [resolveFetch_pending]
    exact h.not_mem_erase

/-- A state with one pending fetch for `("k", [0,100))` over the empty
cache. -/
def stPendingOne : CoordState :=
  { cache := { key := none, start := none, end_ := none, events := [] },
    pending := [dedupKeyOf "k" 0 100] }

/-- Witness for `events_dedup_invariants`: with the dedup key pending over
an empty (non-covering) cache the invocation awaits it, and settling
removes it from the pending map. -/
theorem events_dedup_invariants_witness :
    coordStep stPendingOne 0 100 0 100 "k" =
      (stPendingOne, Outcome.awaited (dedupKeyOf "k" 0 100)) ∧
    dedupKeyOf "k" 0 100 ∉
      (resolveFetch stPendingOne (dedupKeyOf "k" 0 100)
        FetchOutcome.reject 0 100 "k" 0 100).1.pending := by
  have h := events_dedup_invariants stPendingOne 0 100 0 100 "k" FetchOutcome.reject []
  exact ⟨h.2.1 (by decide) (by decide), h.2.2.2.2.2.1 (by decide)⟩

/-! ## C9: duration guard round-trip -/

lemma natCharsRev_eq_digits : ∀ fuel n : Nat, n ≤ fuel →
    natCharsRev fuel n = (Nat.digits 10 n).map digitChar := by
  intro fuel
  induction fuel with
  | zero =>
    intro n hn
    have h0 : n = 0 := by omega
    subst h0
    simp [natCharsRev]
  | succ fuel ih =>
    intro n hn
    cases n with
    | zero => simp [natCharsRev]
    | succ m =>
      have hstep : natCharsRev (fuel + 1) (m + 1)
          = digitChar ((m + 1) % 10) :: natCharsRev fuel ((m + 1) / 10) := rfl
      rw [hstep, Nat.digits_def' (by norm_num : (1 : Nat) < 10) (Nat.succ_pos m)]
      rw [List.map_cons]
      congr 1
      exact ih ((m + 1) / 10)
        (by
          have := Nat.div_lt_self (Nat.succ_pos m) (by norm_num : (1 : Nat) < 10)
          omega)

lemma natChars_eq_digits (n : Nat) (hn : n ≠ 0) :
    natChars n = ((Nat.digits 10 n).map digitChar).reverse := by
  rw [natChars, if_neg hn, natCharsRev_eq_digits n n le_rfl]

lemma natChars_ne_nil (n : Nat) : natChars n ≠ [] := by
  by_cases hn : n = 0
  · subst hn; decide
  · rw [natChars_eq_digits n hn]
    simp [Nat.digits_ne_nil_iff_ne_zero, hn]

lemma natChars_mem (n : Nat) (c : Char) (hc : c ∈ natChars n) :
    ∃ d, d < 10 ∧ c = digitChar d := by
  by_cases hn : n = 0
  · subst hn
    simp [natChars] at hc
    exact ⟨0, by norm_num, hc⟩
  · rw [natChars_eq_digits n hn] at hc
    rw [List.mem_reverse, List.mem_map] at hc
    obtain ⟨d, hd, rfl⟩ := hc
    exact ⟨d, Nat.digits_lt_base (by norm_num) hd, rfl⟩

lemma digit_char_facts : ∀ d < 10, charDigit (digitChar d) = d ∧
    isDigitChar (digitChar d) = true ∧ isJsSpace (digitChar d) = false ∧
    digitChar d ≠ '-' ∧ digitChar d ≠ '+' := by decide

lemma foldl_base10 (L : List Nat) :
    ∀ acc : Nat, L.reverse.foldl (fun a d => a * 10 + d) acc
      = acc * 10 ^ L.length + Nat.ofDigits 10 L := by
  induction L with
  | nil => intro acc; simp
  | cons d L ih =>
    intro acc
    rw [List.reverse_cons, List.foldl_append, ih]
    simp only [List.foldl_cons, List.foldl_nil, List.length_cons, Nat.ofDigits_cons]
    ring

lemma foldl_digits_congr : ∀ (L : List Nat) (acc : Nat), (∀ d ∈ L, d < 10) →
    L.foldl (fun a d => a * 10 + charDigit (digitChar d)) acc
      = L.foldl (fun a d => a * 10 + d) acc := by
  intro L
  induction L with
  | nil => intro acc _; rfl
  | cons d L ih =>
    intro acc h
    simp only [List.foldl_cons]
    rw [(digit_char_facts d (h d (List.mem_cons_self d L))).1]
    exact ih _ (fun x hx => h x (List.mem_cons_of_mem d hx))

lemma digitsVal_natChars (n : Nat) (hn : n ≠ 0) : digitsVal (natChars n) = n := by
  rw [natChars_eq_digits n hn, digitsVal]
  rw [← List.map_reverse, List.foldl_map]
  rw [foldl_digits_congr _ 0
    (fun d hd => Nat.digits_lt_base (by norm_num) (List.mem_reverse.mp hd))]
  rw [foldl_base10]
  simp [Nat.ofDigits_digits]

lemma takeWhile_all {p : Char → Bool} : ∀ l : List Char,
    (∀ c ∈ l, p c = true) → l.takeWhile p = l
  | [], _ => rfl
  | c :: cs, h => by
    have hc : p c = true := h c (List.mem_cons_self c cs)
    simp only [List.takeWhile_cons, hc, if_true]
    exact congrArg (c :: ·) (takeWhile_all cs fun x hx => h x (List.mem_cons_of_mem c hx))

lemma jsParseIntChars_natChars (n : Nat) (hn : n ≠ 0) :
    jsParseIntChars (natChars n) = some (n : Int) := by
  have hmem : ∀ x ∈ natChars n,
      isDigitChar x = true ∧ isJsSpace x = false ∧ x ≠ '-' ∧ x ≠ '+' := by
    intro x hx
    obtain ⟨d, hd, rfl⟩ := natChars_mem n x hx
    obtain ⟨_, h2, h3, h4, h5⟩ := digit_char_facts d hd
    exact ⟨h2, h3, h4, h5⟩
  obtain ⟨c, rest, hL⟩ := List.exists_cons_of_ne_nil (natChars_ne_nil n)
  have hc := hmem c (by rw [hL]; exact List.mem_cons_self c rest)
  have hdrop : (natChars n).dropWhile isJsSpace = c :: rest := by
    rw [hL, List.dropWhile_cons, hc.2.1]
    simp
  have htake : (c :: rest).takeWhile isDigitChar = c :: rest :=
    takeWhile_all _ (fun x hx => (hmem x (by rw [hL]; exact hx)).1)
  rw [jsParseIntChars, hdrop]
  dsimp only
  rw [if_neg hc.2.2.1, if_neg hc.2.2.2, leadNat]
  rw [htake, if_neg (by simp), ← hL, digitsVal_natChars n hn]
  rfl

lemma jsStringOfInt_pos_ne_empty (v : Int) (hv : 0 < v) : jsStringOfInt v ≠ "" := by
  rw [jsStringOfInt, if_neg (by omega : ¬ v < 0)]
  intro h
  have hdata : natChars v.toNat = [] := by
    have := congrArg String.data h
    simpa using this
  exact natChars_ne_nil v.toNat hdata

lemma jsParseInt_jsStringOfInt_pos (v : Int) (hv : 0 < v) :
    jsParseInt (jsStringOfInt v) = some v := by
  rw [jsStringOfInt, if_neg (by omega : ¬ v < 0), jsParseInt]
  have hdata : (String.mk (natChars v.toNat)).data = natChars v.toNat := rfl
  rw [hdata, jsParseIntChars_natChars v.toNat (by omega)]
  congr 1
  exact Int.toNat_of_nonneg hv.le

/-- C9: after setting the default new-event duration to `m`, retrieval
returns `m` when `m` is positive and different from 15, and 60 otherwise
(setting exactly 15 stores and retrieves 60); retrieval with no stored
value yields 60. -/
theorem defaultDuration_guard_roundtrip (m : Int) :
    getDefaultEventDurationMin (some (setDefaultEventDurationMin m))
      = (if 0 < m ∧ m ≠ 15 then m else 60) ∧
    getDefaultEventDurationMin none = 60 := by
  constructor
  · have hsplit : setDefaultEventDurationMin m
        = jsStringOfInt (if m ≤ 0 ∨ m = 15 then 60 else m) := rfl
    set v : Int := if m ≤ 0 ∨ m = 15 then 60 else m with hv
    have hvpos : 0 < v := by
      rw [hv]
      split
      · norm_num
      · next h => push_neg at h; omega
    have hv15 : v ≠ 15 := by
      rw [hv]
      split
      · norm_num
      · next h => push_neg at h; exact h.2
    have hne : jsStringOfInt v ≠ "" := jsStringOfInt_pos_ne_empty v hvpos
    have hparse := jsParseInt_jsStringOfInt_pos v hvpos
    have hget : getDefaultEventDurationMin (some (jsStringOfInt v))
        = if v ≤ 0 ∨ v = 15 then 60 else v := by
      simp only [getDefaultEventDurationMin, if_neg hne, hparse]
    rw [hsplit, hget, if_neg (by push_neg; exact ⟨hvpos, hv15⟩)]
    rw [hv]
    by_cases h : 0 < m ∧ m ≠ 15
    · rw [if_pos h, if_neg (by omega)]
    · rw [if_neg h, if_pos (by omega)]
  · rfl

/-! ## C10: insert duplicate guard -/

/-- An event whose id is the empty string: non-null, but its string form
is falsy. -/
def emptyIdEvent : CalEvent :=
  { id := JsId.str ""
    start := none
    end_ := none
    fields := []
    extendedProps := none }

/-- C10 counterexample: an event with the non-null id `""` is appended
even though a cached event has the same id string — the guard tests the
truthiness of `String(ev.id)`, so an empty id string disables it. -/
theorem addEvent_empty_id_cex :
    JsId.str "" ≠ JsId.null ∧ JsId.str "" ≠ JsId.undef ∧
    (∃ e ∈ [emptyIdEvent], jsStringOfId e.id = jsStringOfId emptyIdEvent.id) ∧
    (addEventToCache
      { key := none, start := none, end_ := none, events := [emptyIdEvent] }
      emptyIdEvent).events.length = 2 := by
  decide

/-- C10 amended: events whose id is null, undefined, or stringifies to the
empty string are appended unconditionally; for every other event the
insert is a no-op exactly when some cached event's id has the same string
representation. -/
theorem addEvent_guard_spec (c : EventsCache) (ev : CalEvent) :
    ((ev.id = JsId.null ∨ ev.id = JsId.undef ∨ jsStringOfId ev.id = "") →
        (addEventToCache c ev).events = c.events ++ [ev]) ∧
    (ev.id ≠ JsId.null → ev.id ≠ JsId.undef → jsStringOfId ev.id ≠ "" →
        (addEventToCache c ev).events =
          (if c.events.any (fun e => jsStringOfId e.id = jsStringOfId ev.id)
           then c.events else c.events ++ [ev])) := by
  constructor
  · intro h
    rcases h with h | h | h
    · simp [addEventToCache, h]
    · simp [addEventToCache, h]
    · by_cases h1 : ev.id = JsId.null
      · simp [addEventToCache, h1]
      · by_cases h2 : ev.id = JsId.undef
        · simp [addEventToCache, h2]
        · simp [addEventToCache, h1, h2, h]
  · intro h1 h2 h3
    simp only [addEventToCache, h1, h2, or_self, if_false, h3, if_neg h3]
    split
    · rfl
    · rfl

/-- Witness for `addEvent_guard_spec`: re-inserting the sample event (id
`"1"`) into a cache already holding it is a no-op decided by the
duplicate test. -/
theorem addEvent_guard_spec_witness :
    (addEventToCache
        { key := none, start := none, end_ := none, events := [sampleEvent] }
        sampleEvent).events =
      (if [sampleEvent].any (fun e => jsStringOfId e.id = jsStringOfId sampleEvent.id)
       then [sampleEvent] else [sampleEvent] ++ [sampleEvent]) :=
  (addEvent_guard_spec
      { key := none, start := none, end_ := none, events := [sampleEvent] }
      sampleEvent).2 (by decide) (by decide) (by decide)

/-! ## C1: merge-by-id semantics -/

/-- An event carrying a `title` field and a `phone` extended property. -/
def evMergeA : CalEvent :=
  { id := JsId.str "1"
    start := some "2024-01-10T09:00"
    end_ := none
    fields := [("title", "Consulta")]
    extendedProps := some [("phone", "9")] }

/-- An event with the same id, no scalar fields and a `notes` extended
property. -/
def evMergeB : CalEvent :=
  { id := JsId.str "1"
    start := some "2024-01-10T09:30"
    end_ := none
    fields := []
    extendedProps := some [("notes", "x")] }

/-- C1 counterexample: absorbing `[A]` then `[B]` under one key leaves the
cache holding exactly `[B]`, and `B` differs from the event the claim's
per-field merge predicts (which would retain A's `title` and merge the
`extendedProps` bags). -/
theorem storeEvents_not_field_merge_cex :
    (storeEventsToCache
        (storeEventsToCache
          { key := none, start := none, end_ := none, events := [] }
          [evMergeA] (some 0) (some 100) "k")
        [evMergeB] (some 0) (some 100) "k").events = [evMergeB] ∧
    specFieldMerge evMergeA evMergeB ≠ evMergeB := by
  decide

/-- C1 amended: absorbing `[A]` then `[B]` under the same (fresh) key and
non-null coverage, with `String(A.id) = String(B.id)`, leaves exactly one
event with that id and it is `B` itself — the merge is wholesale per-id
replacement, dropping A's extra fields and replacing `extendedProps`. -/
theorem storeEvents_same_id_wholesale (c : EventsCache) (A B : CalEvent)
    (cs ce : Int) (k : String) (hk : c.key ≠ some k)
    (hid : jsStringOfId A.id = jsStringOfId B.id) :
    (storeEventsToCache
        (storeEventsToCache c [A] (some cs) (some ce) k)
        [B] (some cs) (some ce) k).events = [B] := by
  have h1 : storeEventsToCache c [A] (some cs) (some ce) k
      = { key := some k, start := some cs, end_ := some ce, events := [A] } := by
    rw [storeEventsToCache, if_pos (Or.inl hk)]
  rw [h1, storeEventsToCache, if_neg (by simp)]
  simp [mapSetAll, mapSet, evKey, hid]

/-- Witness for `storeEvents_same_id_wholesale` on the two concrete
events. -/
theorem storeEvents_same_id_wholesale_witness :
    (storeEventsToCache
        (storeEventsToCache { key := none, start := none, end_ := none, events := [] }
          [evMergeA] (some 0) (some 100) "k")
        [evMergeB] (some 0) (some 100) "k").events = [evMergeB] :=
  storeEvents_same_id_wholesale
    { key := none, start := none, end_ := none, events := [] }
    evMergeA evMergeB 0 100 "k" (by decide) (by decide)

/-! ## C8: idempotence of absorb -/

/-- Keys of the merge map, in insertion order. -/
def mapKeys (m : List (String × CalEvent)) : List String := m.map Prod.fst

/-- `Map.prototype.get`. -/
def mapLookup (m : List (String × CalEvent)) (k : String) : Option CalEvent :=
  (m.find? (fun p => p.1 = k)).map Prod.snd

/-- Every entry of the merge map is keyed by its event's id string. -/
def consistentMap (m : List (String × CalEvent)) : Prop :=
  ∀ p ∈ m, p.1 = evKey p.2

lemma any_key_iff (m : List (String × CalEvent)) (k : String) :
    (m.any (fun p => p.1 = k)) = true ↔ k ∈ mapKeys m := by
  simp only [List.any_eq_true, decide_eq_true_eq, mapKeys, List.mem_map]

lemma mapSet_of_mem {m : List (String × CalEvent)} {k : String} (v : CalEvent)
    (hk : k ∈ mapKeys m) :
    mapSet m k v = m.map (fun p => if p.1 = k then (k, v) else p) := by
  rw [mapSet, if_pos ((any_key_iff m k).mpr hk)]

lemma mapSet_of_not_mem {m : List (String × CalEvent)} {k : String} (v : CalEvent)
    (hk : k ∉ mapKeys m) :
    mapSet m k v = m ++ [(k, v)] := by
  rw [mapSet, if_neg (fun h => hk ((any_key_iff m k).mp h))]

lemma mapKeys_map_replace (m : List (String × CalEvent)) (k : String) (v : CalEvent) :
    mapKeys (m.map (fun p => if p.1 = k then (k, v) else p)) = mapKeys m := by
  induction m with
  | nil => rfl
  | cons q m ih =>
    simp only [mapKeys, List.map_cons] at ih ⊢
    by_cases hq : q.1 = k
    · simp [hq, ih]
    · simp [hq, ih]

lemma mapKeys_mapSet_nodup {m : List (String × CalEvent)} {k : String} (v : CalEvent)
    (h : (mapKeys m).Nodup) : (mapKeys (mapSet m k v)).Nodup := by
  by_cases hk : k ∈ mapKeys m
  · rw [mapSet_of_mem v hk, mapKeys_map_replace]
    exact h
  · rw [mapSet_of_not_mem v hk]
    simp only [mapKeys, List.map_append, List.map_cons, List.map_nil]
    rw [List.nodup_append]
    refine ⟨h, List.nodup_singleton k, ?_⟩
    intro a ha hak
    rw [List.mem_singleton] at hak
    subst hak
    exact hk ha

lemma consistentMap_mapSet {m : List (String × CalEvent)} (v : CalEvent)
    (h : consistentMap m) : consistentMap (mapSet m (evKey v) v) := by
  by_cases hk : evKey v ∈ mapKeys m
  · rw [mapSet_of_mem v hk]
    intro p hp
    rw [List.mem_map] at hp
    obtain ⟨q, hq, rfl⟩ := hp
    by_cases hq1 : q.1 = evKey v
    · simp [hq1]
    · simpa [hq1] using h q hq
  · rw [mapSet_of_not_mem v hk]
    intro p hp
    rw [List.mem_append] at hp
    rcases hp with hp | hp
    · exact h p hp
    · simp only [List.mem_singleton] at hp
      subst hp
      rfl

lemma mapLookup_cons_pos {q : String × CalEvent} (m : List (String × CalEvent))
    (k : String) (hq : q.1 = k) : mapLookup (q :: m) k = some q.2 := by
  rw [mapLookup, List.find?_cons_of_pos _ (by simp [hq])]
  rfl

lemma mapLookup_cons_neg {q : String × CalEvent} {m : List (String × CalEvent)}
    {k : String} (hq : q.1 ≠ k) : mapLookup (q :: m) k = mapLookup m k := by
  rw [mapLookup, List.find?_cons_of_neg _ (by simp [hq]), mapLookup]

lemma mapLookup_nil (k : String) : mapLookup [] k = none := rfl

lemma mapLookup_eq_none {m : List (String × CalEvent)} {k : String}
    (hk : k ∉ mapKeys m) : mapLookup m k = none := by
  induction m with
  | nil => rfl
  | cons q m ih =>
    simp only [mapKeys, List.map_cons, List.mem_cons, not_or] at hk
    rw [mapLookup_cons_neg (fun hh => hk.1 hh.symm)]
    exact ih (by simpa [mapKeys] using hk.2)

lemma lookup_replace_self {k : String} (v : CalEvent) :
    ∀ m : List (String × CalEvent), k ∈ mapKeys m →
      mapLookup (m.map (fun p => if p.1 = k then (k, v) else p)) k = some v := by
  intro m
  induction m with
  | nil => intro h; simp [mapKeys] at h
  | cons q m ih =>
    intro h
    simp only [List.map_cons]
    by_cases hq : q.1 = k
    · rw [if_pos hq]
      exact mapLookup_cons_pos _ _ rfl
    · rw [if_neg hq, mapLookup_cons_neg hq]
      apply ih
      simp only [mapKeys, List.map_cons, List.mem_cons] at h
      rcases h with h | h
      · exact absurd h.symm hq
      · simpa [mapKeys] using h

lemma lookup_append_self {k : String} (v : CalEvent) :
    ∀ m : List (String × CalEvent), k ∉ mapKeys m →
      mapLookup (m ++ [(k, v)]) k = some v := by
  intro m
  induction m with
  | nil => intro _; exact mapLookup_cons_pos _ _ rfl
  | cons q m ih =>
    intro h
    simp only [mapKeys, List.map_cons, List.mem_cons, not_or] at h
    rw [List.cons_append, mapLookup_cons_neg (fun hh => h.1 hh.symm)]
    exact ih (by simpa [mapKeys] using h.2)

lemma mapLookup_mapSet_self (m : List (String × CalEvent)) (k : String) (v : CalEvent) :
    mapLookup (mapSet m k v) k = some v := by
  by_cases hk : k ∈ mapKeys m
  · rw [mapSet_of_mem v hk]
    exact lookup_replace_self v m hk
  · rw [mapSet_of_not_mem v hk]
    exact lookup_append_self v m hk

lemma lookup_replace_ne {k' k : String} (v : CalEvent) (hne : k' ≠ k) :
    ∀ m : List (String × CalEvent),
      mapLookup (m.map (fun p => if p.1 = k' then (k', v) else p)) k = mapLookup m k := by
  intro m
  induction m with
  | nil => rfl
  | cons q m ih =>
    simp only [List.map_cons]
    by_cases hq : q.1 = k'
    · rw [if_pos hq, mapLookup_cons_neg hne, mapLookup_cons_neg (hq ▸ hne), ih]
    · by_cases hqk : q.1 = k
      · rw [if_neg hq, mapLookup_cons_pos _ _ hqk, mapLookup_cons_pos _ _ hqk]
      · rw [if_neg hq, mapLookup_cons_neg hqk, mapLookup_cons_neg hqk, ih]

lemma lookup_append_ne {k' k : String} (v : CalEvent) (hne : k' ≠ k) :
    ∀ m : List (String × CalEvent),
      mapLookup (m ++ [(k', v)]) k = mapLookup m k := by
  intro m
  induction m with
  | nil =>
    rw [List.nil_append, mapLookup_cons_neg hne]
  | cons q m ih =>
    by_cases hqk : q.1 = k
    · rw [List.cons_append, mapLookup_cons_pos _ _ hqk, mapLookup_cons_pos _ _ hqk]
    · rw [List.cons_append, mapLookup_cons_neg hqk, mapLookup_cons_neg hqk, ih]

lemma mapLookup_mapSet_ne (m : List (String × CalEvent)) {k' k : String}
    (v : CalEvent) (hne : k' ≠ k) :
    mapLookup (mapSet m k' v) k = mapLookup m k := by
  by_cases hk : k' ∈ mapKeys m
  · rw [mapSet_of_mem v hk]
    exact lookup_replace_ne v hne m
  · rw [mapSet_of_not_mem v hk]
    exact lookup_append_ne v hne m

lemma map_replace_id {k : String} (v : CalEvent) :
    ∀ m : List (String × CalEvent), k ∉ mapKeys m →
      m.map (fun p => if p.1 = k then (k, v) else p) = m := by
  intro m
  induction m with
  | nil => intro _; rfl
  | cons q m ih =>
    intro h
    simp only [mapKeys, List.map_cons, List.mem_cons, not_or] at h
    rw [List.map_cons, if_neg (fun hh => h.1 hh.symm), ih (by simpa [mapKeys] using h.2)]

lemma mapSet_lookup_id {k : String} {v : CalEvent} :
    ∀ m : List (String × CalEvent), (mapKeys m).Nodup →
      mapLookup m k = some v → mapSet m k v = m := by
  intro m
  induction m with
  | nil =>
    intro _ hlk
    simp [mapLookup] at hlk
  | cons q m ih =>
    intro hnd hlk
    have hnd2 : (q.1 :: mapKeys m).Nodup := by simpa [mapKeys] using hnd
    have hnd' : (mapKeys m).Nodup := (List.nodup_cons.mp hnd2).2
    have hq1 : q.1 ∉ mapKeys m := (List.nodup_cons.mp hnd2).1
    by_cases hq : q.1 = k
    · have hv : q.2 = v := by
        rw [mapLookup_cons_pos m k hq] at hlk
        exact Option.some.inj hlk
      rw [mapSet_of_mem v (by simp [mapKeys, hq.symm])]
      rw [List.map_cons, if_pos hq, ← hq, ← hv, map_replace_id q.2 m hq1]
    · rw [mapLookup_cons_neg hq] at hlk
      have hk : k ∈ mapKeys m := by
        by_contra hcon
        rw [mapLookup_eq_none hcon] at hlk
        cases hlk
      rw [mapSet_of_mem v (by simp [mapKeys]; right; simpa [mapKeys] using hk)]
      rw [List.map_cons, if_neg hq]
      have := mapSet_of_mem (m := m) v hk
      rw [← this, ih hnd' hlk]

lemma mapSetAll_cons (m : List (String × CalEvent)) (e : CalEvent) (es : List CalEvent) :
    mapSetAll m (e :: es) = mapSetAll (mapSet m (evKey e) e) es := rfl

lemma mapSetAll_keys_nodup : ∀ (es : List CalEvent) (m : List (String × CalEvent)),
    (mapKeys m).Nodup → (mapKeys (mapSetAll m es)).Nodup := by
  intro es
  induction es with
  | nil => intro m h; exact h
  | cons e es ih => intro m h; exact ih _ (mapKeys_mapSet_nodup e h)

lemma mapSetAll_consistent : ∀ (es : List CalEvent) (m : List (String × CalEvent)),
    consistentMap m → consistentMap (mapSetAll m es) := by
  intro es
  induction es with
  | nil => intro m h; exact h
  | cons e es ih => intro m h; exact ih _ (consistentMap_mapSet e h)

lemma mapLookup_mapSetAll_not_key : ∀ (es : List CalEvent)
    (m : List (String × CalEvent)) {k : String}, (∀ e ∈ es, evKey e ≠ k) →
    mapLookup (mapSetAll m es) k = mapLookup m k := by
  intro es
  induction es with
  | nil => intro m k _; rfl
  | cons e es ih =>
    intro m k h
    rw [mapSetAll_cons, ih _ (fun x hx => h x (List.mem_cons_of_mem e hx)),
      mapLookup_mapSet_ne m e (h e (List.mem_cons_self e es))]

lemma mapLookup_mapSetAll_self : ∀ (es : List CalEvent)
    (m : List (String × CalEvent)), (es.map evKey).Nodup →
    ∀ e ∈ es, mapLookup (mapSetAll m es) (evKey e) = some e := by
  intro es
  induction es with
  | nil => intro m _ e he; cases he
  | cons x xs ih =>
    intro m hnd e he
    rw [List.map_cons, List.nodup_cons] at hnd
    rcases List.mem_cons.mp he with rfl | he'
    · rw [mapSetAll_cons,
        mapLookup_mapSetAll_not_key xs _
          (fun x' hx' hk => hnd.1 (by rw [← hk]; exact List.mem_map_of_mem evKey hx'))]
      exact mapLookup_mapSet_self m (evKey e) e
    · rw [mapSetAll_cons]
      exact ih _ hnd.2 e he'

lemma mapSetAll_id : ∀ (es : List CalEvent) (m : List (String × CalEvent)),
    (mapKeys m).Nodup → (∀ e ∈ es, mapLookup m (evKey e) = some e) →
    mapSetAll m es = m := by
  intro es
  induction es with
  | nil => intro m _ _; rfl
  | cons x xs ih =>
    intro m hnd h
    rw [mapSetAll_cons, mapSet_lookup_id m hnd (h x (List.mem_cons_self x xs))]
    exact ih m hnd (fun e he => h e (List.mem_cons_of_mem x he))

lemma mapSetAll_fresh : ∀ (es : List CalEvent) (acc : List (String × CalEvent)),
    (es.map evKey).Nodup → (∀ e ∈ es, evKey e ∉ mapKeys acc) →
    mapSetAll acc es = acc ++ es.map (fun e => (evKey e, e)) := by
  intro es
  induction es with
  | nil => intro acc _ _; simp [mapSetAll]
  | cons x xs ih =>
    intro acc hnd hf
    rw [List.map_cons, List.nodup_cons] at hnd
    have hfresh : ∀ e ∈ xs, evKey e ∉ mapKeys (acc ++ [(evKey x, x)]) := by
      intro e he
      simp only [mapKeys, List.map_append, List.map_cons, List.map_nil, List.mem_append,
        List.mem_singleton, not_or]
      refine ⟨by simpa [mapKeys] using hf e (List.mem_cons_of_mem x he), ?_⟩
      intro hk
      exact hnd.1 (by rw [← hk]; exact List.mem_map_of_mem evKey he)
    rw [mapSetAll_cons, mapSet_of_not_mem x (hf x (List.mem_cons_self x xs)),
      ih (acc ++ [(evKey x, x)]) hnd.2 hfresh]
    simp

lemma mapFrom_values {M : List (String × CalEvent)} (hc : consistentMap M)
    (hnd : (mapKeys M).Nodup) : mapSetAll [] (M.map Prod.snd) = M := by
  have hkeys : (M.map Prod.snd).map evKey = mapKeys M := by
    rw [List.map_map]
    exact List.map_congr_left (fun p hp => (hc p hp).symm)
  rw [mapSetAll_fresh (M.map Prod.snd) [] (by rw [hkeys]; exact hnd)
    (by simp [mapKeys])]
  rw [List.nil_append, List.map_map]
  have : ∀ p ∈ M, ((fun e => (evKey e, e)) ∘ Prod.snd) p = p := by
    intro p hp
    simp only [Function.comp_apply]
    rw [← hc p hp]
  rw [List.map_congr_left this]
  simp

lemma absorb_raw_idem (L : List CalEvent) (hL : (L.map evKey).Nodup) :
    (mapSetAll (mapSetAll [] L) L).map Prod.snd = L := by
  have hnd0 : (mapKeys (mapSetAll [] L)).Nodup :=
    mapSetAll_keys_nodup L [] (by simp [mapKeys])
  rw [mapSetAll_id L (mapSetAll [] L) hnd0
    (fun e he => mapLookup_mapSetAll_self L [] hL e he)]
  rw [mapSetAll_fresh L [] hL (by simp [mapKeys])]
  simp [Function.comp_def]

lemma absorb_events_idem (E L : List CalEvent) (hL : (L.map evKey).Nodup) :
    (mapSetAll (mapSetAll [] ((mapSetAll (mapSetAll [] E) L).map Prod.snd)) L).map Prod.snd
      = (mapSetAll (mapSetAll [] E) L).map Prod.snd := by
  have hc : consistentMap (mapSetAll (mapSetAll [] E) L) :=
    mapSetAll_consistent _ _ (mapSetAll_consistent _ _ (by intro p hp; cases hp))
  have hnd : (mapKeys (mapSetAll (mapSetAll [] E) L)).Nodup :=
    mapSetAll_keys_nodup _ _ (mapSetAll_keys_nodup _ _ (by simp [mapKeys]))
  rw [mapFrom_values hc hnd]
  rw [mapSetAll_id L _ hnd (fun e he => mapLookup_mapSetAll_self L _ hL e he)]

lemma coverLow_some_some (a s : Int) :
    coverLow (some a) (some s) = if a < s then some a else some s := rfl

lemma coverHigh_some_some (b e : Int) :
    coverHigh (some b) (some e) = if e < b then some b else some e := rfl

lemma coverLow_isSome (cs : Option Int) (s0 : Int) :
    ∃ s1, coverLow cs (some s0) = some s1 := by
  cases cs with
  | none => exact ⟨s0, rfl⟩
  | some a =>
    by_cases h : a < s0
    · exact ⟨a, by rw [coverLow_some_some, if_pos h]⟩
    · exact ⟨s0, by rw [coverLow_some_some, if_neg h]⟩

lemma coverHigh_isSome (ce : Option Int) (e0 : Int) :
    ∃ e1, coverHigh ce (some e0) = some e1 := by
  cases ce with
  | none => exact ⟨e0, rfl⟩
  | some b =>
    by_cases h : e0 < b
    · exact ⟨b, by rw [coverHigh_some_some, if_pos h]⟩
    · exact ⟨e0, by rw [coverHigh_some_some, if_neg h]⟩

lemma coverLow_idem (cs : Option Int) (s0 : Int) :
    coverLow cs (coverLow cs (some s0)) = coverLow cs (some s0) := by
  cases cs with
  | none => rfl
  | some a =>
    rw [coverLow_some_some]
    by_cases h : a < s0
    · rw [if_pos h, coverLow_some_some, if_neg (lt_irrefl a)]
    · rw [if_neg h, coverLow_some_some, if_neg h]

lemma coverHigh_idem (ce : Option Int) (e0 : Int) :
    coverHigh ce (coverHigh ce (some e0)) = coverHigh ce (some e0) := by
  cases ce with
  | none => rfl
  | some b =>
    rw [coverHigh_some_some]
    by_cases h : e0 < b
    · rw [if_pos h, coverHigh_some_some, if_neg (lt_irrefl b)]
    · rw [if_neg h, coverHigh_some_some, if_neg h]

/-- Two distinct events sharing the id string `"1"`, both open-ended. -/
def dupIdEventA : CalEvent :=
  { id := JsId.str "1"
    start := some "2024-01-10T09:00"
    end_ := none
    fields := []
    extendedProps := none }

/-- Second event with the same id string but a different start. -/
def dupIdEventB : CalEvent :=
  { id := JsId.str "1"
    start := some "2024-01-10T11:00"
    end_ := none
    fields := []
    extendedProps := none }

/-- C8 counterexample: absorbing a list containing two events with the same
id string once stores both (the wholesale-replace branch keeps the raw
list), but absorbing it a second time de-duplicates by id, so the query
result shrinks from two events to one. -/
theorem storeEvents_duplicate_ids_cex :
    (eventsFromCache
        (storeEventsToCache { key := none, start := none, end_ := none, events := [] }
          [dupIdEventA, dupIdEventB] (some 0) (some 100) "k")
        0 (encDate 3000 1 1 0 0 0) "k").length = 2 ∧
    (eventsFromCache
        (storeEventsToCache
          (storeEventsToCache { key := none, start := none, end_ := none, events := [] }
            [dupIdEventA, dupIdEventB] (some 0) (some 100) "k")
          [dupIdEventA, dupIdEventB] (some 0) (some 100) "k")
        0 (encDate 3000 1 1 0 0 0) "k").length = 1 := by
  decide

/-- C8 amended: for an event list whose id strings are pairwise distinct,
absorbing it twice under the same key and coverage leaves the cache state
— and hence every query result — identical to absorbing it once. -/
theorem storeEvents_idempotent (c : EventsCache) (L : List CalEvent)
    (cs ce : Option Int) (k : String) (qs qe : Int) (qk : String)
    (hL : (L.map evKey).Nodup) :
    storeEventsToCache (storeEventsToCache c L cs ce k) L cs ce k
      = storeEventsToCache c L cs ce k ∧
    eventsFromCache (storeEventsToCache (storeEventsToCache c L cs ce k) L cs ce k)
        qs qe qk
      = eventsFromCache (storeEventsToCache c L cs ce k) qs qe qk := by
  have hmain : storeEventsToCache (storeEventsToCache c L cs ce k) L cs ce k
      = storeEventsToCache c L cs ce k := by
    by_cases h1 : ¬ c.key = some k ∨ c.start = none ∨ c.end_ = none
    · have hS1 : storeEventsToCache c L cs ce k
          = { key := some k, start := cs, end_ := ce, events := L } := by
        rw [storeEventsToCache, if_pos h1]
      rw [hS1]
      by_cases h2 : cs = none ∨ ce = none
      · rw [storeEventsToCache, if_pos (Or.inr h2)]
      · push_neg at h2
        obtain ⟨a, ha⟩ := Option.ne_none_iff_exists'.mp h2.1
        obtain ⟨b, hb⟩ := Option.ne_none_iff_exists'.mp h2.2
        subst ha
        subst hb
        rw [storeEventsToCache, if_neg (by simp)]
        simp only [EventsCache.mk.injEq]
        exact ⟨trivial, by rw [coverLow_some_some, if_neg (lt_irrefl a)],
          by rw [coverHigh_some_some, if_neg (lt_irrefl b)], absorb_raw_idem L hL⟩
    · push_neg at h1
      obtain ⟨hk, hs, he⟩ := h1
      obtain ⟨s0, hs0⟩ := Option.ne_none_iff_exists'.mp hs
      obtain ⟨e0, he0⟩ := Option.ne_none_iff_exists'.mp he
      have hS1 : storeEventsToCache c L cs ce k
          = { key := c.key, start := coverLow cs c.start, end_ := coverHigh ce c.end_,
              events := (mapSetAll (mapSetAll [] c.events) L).map Prod.snd } := by
        rw [storeEventsToCache, if_neg (by simp [hk, hs0, he0])]
      rw [hS1]
      obtain ⟨s1, hs1⟩ := coverLow_isSome cs s0
      obtain ⟨e1, he1⟩ := coverHigh_isSome ce e0
      rw [storeEventsToCache, if_neg (by simp [hk, hs0, he0, hs1, he1])]
      simp only [EventsCache.mk.injEq]
      refine ⟨trivial, ?_, ?_, absorb_events_idem c.events L hL⟩
      · rw [hs0, coverLow_idem]
      · rw [he0, coverHigh_idem]
  exact ⟨hmain, by rw [hmain]⟩

/-- Witness for `storeEvents_idempotent`: double-absorbing the singleton
sample list equals absorbing it once. -/
theorem storeEvents_idempotent_witness :
    storeEventsToCache
        (storeEventsToCache { key := none, start := none, end_ := none, events := [] }
          [sampleEvent] (some 0) (some 100) "k")
        [sampleEvent] (some 0) (some 100) "k"
      = storeEventsToCache { key := none, start := none, end_ := none, events := [] }
          [sampleEvent] (some 0) (some 100) "k" :=
  (storeEvents_idempotent { key := none, start := none, end_ := none, events := [] }
    [sampleEvent] (some 0) (some 100) "k" 0 100 "k" (by decide)).1
